import Mathlib

/-!
Verification of the bill-processing pipeline in `src/streamlit_app.py`.

The embedding below translates the pure logic of the source file into Lean:

* the Google-Sheets worksheet manipulated by `update_google_sheet` becomes a
  `Worksheet` (header row plus data rows);
* Python dictionaries (the extracted bill records) become association lists
  with string keys;
* the worksheet-resolution logic of `get_or_create_worksheet` is modelled over
  the list of worksheet titles of the spreadsheet;
* the model-response parsing of `analyze_bill_type_and_party` and
  `extract_bill_details` (strip, backtick/"json" removal, `json.loads`) is
  modelled over `List Char` with an executable JSON parser;
* the Streamlit UI flow at the bottom of the file becomes a pure function
  from the two model-response texts to the list of side effects (`Event`s)
  it performs, in order.
-/

namespace BillApp

/-- Python `x in l` for a list of strings (`h not in headers` in the source). -/
def pyIn (x : String) (l : List String) : Bool := l.any (fun y => y == x)

/-- The keys of a Python dict, in insertion order (`data_dict.keys()`). -/
def dictKeys (d : List (String × String)) : List String := d.map Prod.fst

/-- Python `data_dict.get(h, dflt)`. -/
def dictGetD (d : List (String × String)) (k : String) (dflt : String) : String :=
  match d.find? (fun p => p.1 == k) with
  | some p => p.2
  | none => dflt

/-- A worksheet: the header row (row 1) and the data rows below it. -/
structure Worksheet where
  header : List String
  rows : List (List String)
deriving DecidableEq, Repr

/-- `update_google_sheet(worksheet, data_dict)` from `src/streamlit_app.py`
(lines 185-206): read the header row, compute the record keys not already
present, write the full key list when the header row is empty or append the
new keys at the end otherwise, re-read the header row, and append the record
projected onto that header order. -/
def update_google_sheet (ws : Worksheet) (data_dict : List (String × String)) :
    Worksheet :=
  let headers := ws.header
  let new_headers := (dictKeys data_dict).filter (fun h => !(pyIn h headers))
  let ws1 :=
    if new_headers.isEmpty then ws
    else if headers.isEmpty then { ws with header := dictKeys data_dict }
    else { ws with header := headers ++ new_headers }
  let all_headers := ws1.header
  let new_row := all_headers.map (fun h => dictGetD data_dict h "")
  { ws1 with rows := ws1.rows ++ [new_row] }

/-- Python `str.lower()`, modelled characterwise over the string data. -/
def pyLower (s : String) : String := String.mk (s.data.map Char.toLower)

/-- `get_or_create_worksheet(party_name)` from `src/streamlit_app.py`
(lines 167-182), modelled over the list of worksheet titles of the
spreadsheet (titles are unique, so a title is a worksheet handle): exact
title lookup first, then a case-insensitive scan in sheet order, and only on
a double miss a new worksheet is appended.  Returns the updated title list
and the resolved title. -/
def get_or_create_worksheet (sheets : List String) (party_name : String) :
    List String × String :=
  match sheets.find? (fun t => t == party_name) with
  | some t => (sheets, t)
  | none =>
    match sheets.find? (fun t => pyLower t == pyLower party_name) with
    | some t => (sheets, t)
    | none => (sheets ++ [party_name], party_name)

/-! ## Model-response texts and JSON parsing

Python strings are modelled as `List Char`.  `json.loads` is modelled by an
executable recursive-descent parser (`json_loads`) over a JSON value type;
numeric literals are modelled for integer numerals, which covers every text
appearing in the specification's scenarios. -/

/-- A parsed JSON value (the possible results of `json.loads`). -/
inductive JValue where
  | jnull : JValue
  | jbool : Bool → JValue
  | jnum : Int → JValue
  | jstr : List Char → JValue
  | jarr : List JValue → JValue
  | jobj : List (List Char × JValue) → JValue
deriving Repr

/-- JSON whitespace (also the whitespace stripped by Python `str.strip()`
that can occur in model responses). -/
def isJsonWs (c : Char) : Bool := c == ' ' || c == '\t' || c == '\n' || c == '\r'

/-- Drop leading whitespace. -/
def skipWs (s : List Char) : List Char := s.dropWhile isJsonWs

/-- Drop trailing whitespace. -/
def dropTrailWs : List Char → List Char
  | [] => []
  | c :: cs =>
    let t := dropTrailWs cs
    if t.isEmpty then (if isJsonWs c then [] else [c]) else c :: t

/-- Python `str.strip()`: remove leading and trailing whitespace. -/
def pyStrip (s : List Char) : List Char := dropTrailWs (s.dropWhile isJsonWs)

/-- `startsWith pat s`: `pat` occurs at the start of `s`. -/
def startsWith : List Char → List Char → Bool
  | [], _ => true
  | _ :: _, [] => false
  | p :: ps, c :: cs => p == c && startsWith ps cs

/-- Python `pat in s` for strings: `pat` occurs somewhere in `s`. -/
def hasSub (pat : List Char) : List Char → Bool
  | [] => pat.isEmpty
  | c :: cs => startsWith pat (c :: cs) || hasSub pat cs

/-- One fuelled pass of Python `s.replace(pat, "")`: scan left to right and
delete every (non-overlapping) occurrence of `pat`.  The fuel bounds the
number of scanning steps; each step consumes at least one character, so
`s.length` fuel always suffices. -/
def delSub (pat : List Char) : Nat → List Char → List Char
  | _, [] => []
  | 0, s => s
  | Nat.succ fuel, c :: cs =>
    if startsWith pat (c :: cs) then delSub pat fuel (cs.drop (pat.length - 1))
    else c :: delSub pat fuel cs

/-- Python `s.replace(pat, "")`. -/
def pyReplaceDel (pat : List Char) (s : List Char) : List Char :=
  delSub pat s.length s

/-- The backtick character (code-fence marker). -/
def btick : Char := Char.ofNat 96

/-- The language-tag token removed by the response cleaner. -/
def jsonTag : List Char := ['j', 's', 'o', 'n']

/-- The response cleaning performed at lines 89 and 131 of
`src/streamlit_app.py`:
`response.text.strip().replace(backtick, "").replace("json", "")`. -/
def cleanResponse (text : List Char) : List Char :=
  pyReplaceDel jsonTag (pyReplaceDel [btick] (pyStrip text))

/-- Insert a member into a JSON object under construction, with Python dict
semantics: an existing key is overwritten in place, a new key is appended. -/
def dictInsertJ (d : List (List Char × JValue)) (k : List Char) (v : JValue) :
    List (List Char × JValue) :=
  if d.any (fun p => p.1 == k) then d.map (fun p => if p.1 == k then (k, v) else p)
  else d ++ [(k, v)]

/-- The two-character JSON string escapes, as a lookup table from the
character after the backslash to the character it denotes. -/
def escPairs : List (Char × Char) :=
  [('n', '\n'), ('t', '\t'), ('r', '\r'), ('b', Char.ofNat 8),
   ('f', Char.ofNat 12), ('/', '/'), ('"', '"'), ('\\', '\\')]

/-- JSON string escapes recognised by the parser. -/
def escChar (e : Char) : Option Char :=
  (escPairs.find? (fun p => p.1 == e)).map Prod.snd

/-- Parse the body of a JSON string, after the opening quote; returns the
string contents and the input after the closing quote. -/
def parseStringBody : List Char → Option (List Char × List Char)
  | [] => none
  | c :: cs =>
    if c == '"' then some ([], cs)
    else if c == '\\' then
      match cs with
      | [] => none
      | e :: cs' =>
        match escChar e with
        | some d =>
          match parseStringBody cs' with
          | some (str, rest) => some (d :: str, rest)
          | none => none
        | none => none
    else
      match parseStringBody cs with
      | some (str, rest) => some (c :: str, rest)
      | none => none

/-- ASCII digit test. -/
def isDigitCh (c : Char) : Bool := '0' ≤ c && c ≤ '9'

/-- Numeric value of a digit string. -/
def digitsVal (ds : List Char) : Nat :=
  ds.foldl (fun a c => a * 10 + (c.toNat - 48)) 0

/-- Parse an integer numeral (optional minus sign, then digits). -/
def parseNumber (s : List Char) : Option (Int × List Char) :=
  match s with
  | '-' :: rest =>
    let ds := rest.takeWhile isDigitCh
    if ds.isEmpty then none
    else some (-(digitsVal ds : Int), rest.drop ds.length)
  | _ =>
    let ds := s.takeWhile isDigitCh
    if ds.isEmpty then none
    else some ((digitsVal ds : Int), s.drop ds.length)

/-- Parser mode: a value, the members of an object being read, or the
elements of an array being read. -/
inductive PMode where
  | value : PMode
  | members : List (List Char × JValue) → PMode
  | elements : List JValue → PMode

/-- The recursive-descent JSON parser.  In `value` mode it parses one JSON
value; `members acc` reads object members after a `\x7b` (with `acc` the
members read so far); `elements acc` likewise for arrays.  Returns the value
and the unconsumed input.  The fuel bounds nesting; every recursive call
follows the consumption of at least one character, so `length + 1` fuel is
always enough. -/
def parseF : Nat → PMode → List Char → Option (JValue × List Char)
  | 0, _, _ => none
  | Nat.succ fuel, PMode.value, s =>
    match skipWs s with
    | [] => none
    | c :: cs =>
      if c == '"' then
        match parseStringBody cs with
        | some (str, rest) => some (JValue.jstr str, rest)
        | none => none
      else if c == '\x7b' then
        match skipWs cs with
        | '\x7d' :: rest => some (JValue.jobj [], rest)
        | _ => parseF fuel (PMode.members []) cs
      else if c == '[' then
        match skipWs cs with
        | ']' :: rest => some (JValue.jarr [], rest)
        | _ => parseF fuel (PMode.elements []) cs
      else if startsWith ['n', 'u', 'l', 'l'] (c :: cs) then
        some (JValue.jnull, (c :: cs).drop 4)
      else if startsWith ['t', 'r', 'u', 'e'] (c :: cs) then
        some (JValue.jbool true, (c :: cs).drop 4)
      else if startsWith ['f', 'a', 'l', 's', 'e'] (c :: cs) then
        some (JValue.jbool false, (c :: cs).drop 5)
      else
        match parseNumber (c :: cs) with
        | some (n, rest) => some (JValue.jnum n, rest)
        | none => none
  | Nat.succ fuel, PMode.members acc, s =>
    match skipWs s with
    | '"' :: cs =>
      match parseStringBody cs with
      | some (k, r1) =>
        match skipWs r1 with
        | ':' :: r2 =>
          match parseF fuel PMode.value r2 with
          | some (v, r3) =>
            match skipWs r3 with
            | ',' :: r4 => parseF fuel (PMode.members (dictInsertJ acc k v)) r4
            | '\x7d' :: r4 => some (JValue.jobj (dictInsertJ acc k v), r4)
            | _ => none
          | none => none
        | _ => none
      | none => none
    | _ => none
  | Nat.succ fuel, PMode.elements acc, s =>
    match parseF fuel PMode.value s with
    | some (v, r1) =>
      match skipWs r1 with
      | ',' :: r2 => parseF fuel (PMode.elements (acc ++ [v])) r2
      | ']' :: r2 => some (JValue.jarr (acc ++ [v]), r2)
      | _ => none
    | none => none

/-- `json.loads`: strip surrounding whitespace, parse one JSON value, and
require that nothing but whitespace remains. -/
def json_loads (s : List Char) : Option JValue :=
  let t := pyStrip s
  match parseF (t.length + 1) PMode.value t with
  | some (v, rest) => if (skipWs rest).isEmpty then some v else none
  | none => none

/-- The Response Parser shared by both stages (lines 89-91 and 131-132 of
`src/streamlit_app.py`): clean the model text, then `json.loads` it;
`none` models the `json.JSONDecodeError` path. -/
def parseResponse (text : List Char) : Option JValue :=
  json_loads (cleanResponse text)

/-- Python `data.get(k)` on a parsed JSON object.  `json.loads` maps a JSON
`null` to Python `None`, and `dict.get` returns `None` both for an absent key
and for a key stored with value `None`, so `none` models both cases: a lookup
yields `some` only for a present, non-null value. -/
def jGet (kvs : List (List Char × JValue)) (k : List Char) : Option JValue :=
  match kvs.find? (fun p => p.1 == k) with
  | some (_, JValue.jnull) => none
  | some p => some p.2
  | none => none

/-- The key `"bill_type"`. -/
def billTypeKey : List Char := "bill_type".toList

/-- The key `"party_name"`. -/
def partyNameKey : List Char := "party_name".toList

/-- Python truthiness of an optional JSON value (`if bill_type and
party_name:`, `if extracted_data:`): `None`, `null`, `False`, `0`, and empty
strings, arrays and objects are falsy. -/
def jTruthy : Option JValue → Bool
  | none => false
  | some JValue.jnull => false
  | some (JValue.jbool b) => b
  | some (JValue.jnum n) => !(n == 0)
  | some (JValue.jstr s) => !s.isEmpty
  | some (JValue.jarr xs) => !xs.isEmpty
  | some (JValue.jobj kvs) => !kvs.isEmpty

/-- The observable side effects of one pipeline run, in program order. -/
inductive Event where
  | shownImage : Event
  | shownParse1Error : Event
  | shownParse2Error : Event
  | shownRaw : List Char → Event
  | shownDetected : Event
  | resolvedFolder : Event
  | resolvedSheet : Event
  | uploadedFile : List Char → Event
  | updatedSheet : Event
  | shownSuccess : Event
  | shownLink : List Char → Event
  | shownJson : Event
  | shownExtractError : Event
  | shownClassifyError : Event
  | deletedFile : List Char → Event
deriving DecidableEq, Repr

/-- `analyze_bill_type_and_party` (lines 70-95 of `src/streamlit_app.py`)
applied to the model's response text, together with the UI events of its
error path: on a parse to a JSON object it returns
`(data.get "bill_type", data.get "party_name")`; on a parse failure (or a
non-object result, whose `.get` raises `AttributeError`) the `except` branch
shows the error and the raw response text and returns `(None, None)`. -/
def analyze_ui (txt : List Char) :
    (Option JValue × Option JValue) × List Event :=
  match parseResponse txt with
  | some (JValue.jobj kvs) => ((jGet kvs billTypeKey, jGet kvs partyNameKey), [])
  | _ => ((none, none), [Event.shownParse1Error, Event.shownRaw txt])

/-- The return value of `analyze_bill_type_and_party`. -/
def analyze_bill_type_and_party (txt : List Char) : Option JValue × Option JValue :=
  (analyze_ui txt).1

/-- `extract_bill_details` (lines 98-136 of `src/streamlit_app.py`) applied
to the model's response text, with the UI events of its error path: the
parsed JSON value on success, `None` plus an error and the raw text on a
parse failure. -/
def extract_ui (txt : List Char) : Option JValue × List Event :=
  match parseResponse txt with
  | some v => (some v, [])
  | none => (none, [Event.shownParse2Error, Event.shownRaw txt])

/-- The return value of `extract_bill_details`. -/
def extract_bill_details (txt : List Char) : Option JValue :=
  (extract_ui txt).1

/-- The main Streamlit flow (lines 215-247 of `src/streamlit_app.py`) for one
uploaded file, as the ordered list of its observable effects, as a function
of the two model-response texts and the uploaded file name: show the image;
classify; if bill type and party are truthy, resolve the Drive folder and the
worksheet, upload the image, extract; if extraction is truthy, update the
sheet and show success, the Drive link and the data, otherwise show the
extraction error; on a classification failure show the classification
error. -/
def mainFlow (classifyResp extractResp fileName : List Char) : List Event :=
  let a := analyze_ui classifyResp
  let bt := a.1.1
  let pn := a.1.2
  let ev0 := Event.shownImage :: a.2
  if jTruthy bt && jTruthy pn then
    let ev1 := ev0 ++ [Event.shownDetected, Event.resolvedFolder,
      Event.resolvedSheet, Event.uploadedFile fileName]
    let ex := extract_ui extractResp
    if jTruthy ex.1 then
      ev1 ++ ex.2 ++ [Event.updatedSheet, Event.shownSuccess,
        Event.shownLink fileName, Event.shownJson]
    else
      ev1 ++ ex.2 ++ [Event.shownExtractError]
  else
    ev0 ++ [Event.shownClassifyError]

/-! ## MIME types attached to the image bytes -/

/-- An image part sent to the model (`Part.from_data(image_bytes, mime_type)`). -/
structure ImagePart where
  bytes : List Nat
  mime : String
deriving DecidableEq, Repr

/-- `Part.from_data` of the Vertex AI SDK. -/
def Part_from_data (bytes : List Nat) (mime : String) : ImagePart :=
  { bytes := bytes, mime := mime }

/-- The image part built at line 85 of `src/streamlit_app.py`
(classification call): `Part.from_data(image_bytes, mime_type="image/jpeg")`. -/
def analyze_image_part (image_bytes : List Nat) : ImagePart :=
  Part_from_data image_bytes "image/jpeg"

/-- The image part built at line 128 of `src/streamlit_app.py`
(extraction call): `Part.from_data(image_bytes, mime_type="image/jpeg")`. -/
def extract_image_part (image_bytes : List Nat) : ImagePart :=
  Part_from_data image_bytes "image/jpeg"

/-- A Drive upload request. -/
structure UploadRequest where
  name : String
  bytes : List Nat
  mime : String
deriving DecidableEq, Repr

/-- The media upload built by `upload_to_drive` at line 161 of
`src/streamlit_app.py`: `MediaIoBaseUpload(..., mimetype="image/jpeg", ...)`. -/
def upload_request (file_name : String) (image_bytes : List Nat) : UploadRequest :=
  { name := file_name, bytes := image_bytes, mime := "image/jpeg" }

/-- The file types accepted by the upload form at line 213 of
`src/streamlit_app.py`. -/
def file_uploader_types : List String := ["jpg", "jpeg", "png"]

/-- The `new_headers` computed at line 190 of `src/streamlit_app.py`: the
record keys not already present in the header row, in record key order. -/
def new_headers (ws : Worksheet) (d : List (String × String)) : List String :=
  (dictKeys d).filter (fun h => !(pyIn h ws.header))

/-- The opening code fence with language tag, as emitted by the model. -/
def fenceOpen : List Char := [btick, btick, btick, 'j', 's', 'o', 'n', '\n']

/-- The closing code fence. -/
def fenceClose : List Char := ['\n', btick, btick, btick]

/-! ## Lemmas about string cleaning -/

theorem startsWith_append_self (pat w : List Char) :
    startsWith pat (pat ++ w) = true := by
  induction pat with
  | nil => rfl
  | cons p ps ih => simp [startsWith, ih]

/-- If `pat` matches at the start of `s ++ [c]` but does not contain `c`,
then it already matches at the start of `s`. -/
theorem startsWith_snoc (pat : List Char) (c : Char) (hc : c ∉ pat) :
    ∀ s, startsWith pat (s ++ [c]) = true → startsWith pat s = true := by
  induction pat with
  | nil => intro s _; rfl
  | cons p ps ih =>
    intro s hs
    cases s with
    | nil =>
      exfalso
      simp [startsWith] at hs
      exact hc (by simp [hs.1, List.mem_cons])
    | cons x xs =>
      simp only [List.cons_append, startsWith, Bool.and_eq_true] at hs ⊢
      refine ⟨hs.1, ?_⟩
      cases ps with
      | nil => rfl
      | cons q qs =>
        exact ih (fun hq => hc (List.mem_cons_of_mem p hq)) xs hs.2

/-- A pattern that does not occur in `s` and does not contain `c` does not
occur in `c :: s`. -/
theorem hasSub_cons_false (pat s : List Char) (c : Char) (hp : pat ≠ [])
    (hc : c ∉ pat) (hs : hasSub pat s = false) :
    hasSub pat (c :: s) = false := by
  cases pat with
  | nil => exact absurd rfl hp
  | cons p ps =>
    have hpc : (p == c) = false := by
      cases hb : p == c with
      | true => exact absurd (by rw [beq_iff_eq] at hb; rw [← hb]; exact List.mem_cons_self p ps) hc
      | false => rfl
    simp [hasSub, startsWith, hpc, hs]

/-- A pattern that does not occur in `s` and does not contain `c` does not
occur in `s ++ [c]`. -/
theorem hasSub_snoc_false (pat : List Char) (c : Char) (hp : pat ≠ [])
    (hc : c ∉ pat) :
    ∀ s, hasSub pat s = false → hasSub pat (s ++ [c]) = false := by
  intro s
  induction s with
  | nil =>
    intro _
    have h0 : hasSub pat [] = false := by
      cases pat with
      | nil => exact absurd rfl hp
      | cons p ps => rfl
    show hasSub pat ([] ++ [c]) = false
    simpa using hasSub_cons_false pat [] c hp hc h0
  | cons x xs ih =>
    intro hs
    have hsplit : startsWith pat (x :: xs) = false ∧ hasSub pat xs = false := by
      simpa [hasSub] using hs
    have htail : hasSub pat (xs ++ [c]) = false := ih hsplit.2
    have hhead : startsWith pat ((x :: xs) ++ [c]) = false := by
      cases hb : startsWith pat ((x :: xs) ++ [c]) with
      | false => rfl
      | true =>
        exfalso
        have := startsWith_snoc pat c hc (x :: xs) hb
        rw [this] at hsplit
        exact Bool.true_eq_false.mp hsplit.1
    show hasSub pat (x :: (xs ++ [c])) = false
    simp only [hasSub]
    rw [show x :: (xs ++ [c]) = (x :: xs) ++ [c] from rfl, hhead, htail]
    rfl

/-- `delSub` leaves a string without any occurrence of the pattern alone. -/
theorem delSub_no_occurrence (pat : List Char) :
    ∀ (fuel : Nat) (s : List Char), s.length ≤ fuel →
      hasSub pat s = false → delSub pat fuel s = s := by
  intro fuel
  induction fuel with
  | zero =>
    intro s hlen _
    have : s = [] := List.length_eq_zero.mp (Nat.le_zero.mp hlen)
    rw [this]; rfl
  | succ n ih =>
    intro s hlen hs
    cases s with
    | nil => rfl
    | cons c cs =>
      have hsplit : startsWith pat (c :: cs) = false ∧ hasSub pat cs = false := by
        simpa [hasSub] using hs
      have hlen' : cs.length ≤ n := Nat.le_of_succ_le_succ (by simpa using hlen)
      simp [delSub, hsplit.1, ih cs hlen' hsplit.2]

/-- `s.replace(pat, "")` is the identity when the pattern does not occur. -/
theorem pyReplaceDel_no_occurrence (pat s : List Char)
    (hs : hasSub pat s = false) : pyReplaceDel pat s = s :=
  delSub_no_occurrence pat s.length s (Nat.le_refl _) hs

/-- Removal of a single-character pattern is a filter. -/
theorem delSub_singleton (b : Char) :
    ∀ (fuel : Nat) (s : List Char), s.length ≤ fuel →
      delSub [b] fuel s = s.filter (fun c => !(b == c)) := by
  intro fuel
  induction fuel with
  | zero =>
    intro s hlen
    have : s = [] := List.length_eq_zero.mp (Nat.le_zero.mp hlen)
    rw [this]; rfl
  | succ n ih =>
    intro s hlen
    cases s with
    | nil => rfl
    | cons c cs =>
      have hlen' : cs.length ≤ n := Nat.le_of_succ_le_succ (by simpa using hlen)
      cases hb : b == c with
      | true =>
        simp [delSub, startsWith, hb, List.filter_cons, ih cs hlen']
      | false =>
        simp [delSub, startsWith, hb, List.filter_cons, ih cs hlen']

/-- `s.replace(b, "")` for a single character `b` is a filter. -/
theorem pyReplaceDel_singleton (b : Char) (s : List Char) :
    pyReplaceDel [b] s = s.filter (fun c => !(b == c)) :=
  delSub_singleton b s.length s (Nat.le_refl _)

/-- Removing a pattern from `pat ++ rest` when `pat` does not occur in
`rest` yields `rest`: the leading occurrence is deleted and nothing else
matches. -/
theorem pyReplaceDel_front (p : Char) (ps rest : List Char)
    (h : hasSub (p :: ps) rest = false) :
    pyReplaceDel (p :: ps) ((p :: ps) ++ rest) = rest := by
  have hlen : ((p :: ps) ++ rest).length = (ps ++ rest).length + 1 := by simp
  unfold pyReplaceDel
  rw [hlen]
  have hsw : startsWith (p :: ps) ((p :: ps) ++ rest) = true :=
    startsWith_append_self _ _
  have hdrop : (ps ++ rest).drop ((p :: ps).length - 1) = rest := by
    simp [List.drop_left' (by rfl : ps.length = ps.length)]
  show delSub (p :: ps) ((ps ++ rest).length + 1) ((p :: ps) ++ rest) = rest
  rw [List.cons_append, delSub]
  simp only [← List.cons_append, hsw, if_true]
  rw [hdrop]
  exact delSub_no_occurrence (p :: ps) (ps ++ rest).length rest
    (by simp) h

/-! ## Lemmas about whitespace stripping -/

theorem dropTrailWs_snoc_ws (c : Char) (hc : isJsonWs c = true) :
    ∀ s, dropTrailWs (s ++ [c]) = dropTrailWs s := by
  intro s
  induction s with
  | nil => simp [dropTrailWs, hc]
  | cons x xs ih =>
    show dropTrailWs (x :: (xs ++ [c])) = dropTrailWs (x :: xs)
    simp only [dropTrailWs, List.append_eq]
    rw [ih]

theorem dropTrailWs_snoc_nonws (c : Char) (hc : isJsonWs c = false) :
    ∀ s, dropTrailWs (s ++ [c]) = s ++ [c] := by
  intro s
  induction s with
  | nil => simp [dropTrailWs, hc]
  | cons x xs ih =>
    show dropTrailWs (x :: (xs ++ [c])) = x :: (xs ++ [c])
    simp only [dropTrailWs, List.append_eq]
    rw [ih]
    simp

theorem pyStrip_snoc_ws (c : Char) (hc : isJsonWs c = true) :
    ∀ s, pyStrip (s ++ [c]) = pyStrip s := by
  intro s
  induction s with
  | nil => simp [pyStrip, skipWs, dropTrailWs, hc]
  | cons x xs ih =>
    cases hx : isJsonWs x with
    | true =>
      unfold pyStrip
      simp only [List.cons_append, List.dropWhile_cons_of_pos hx]
      exact ih
    | false =>
      unfold pyStrip
      simp only [List.cons_append,
        List.dropWhile_cons_of_neg (by simp [hx] : ¬ (isJsonWs x = true))]
      show dropTrailWs ((x :: xs) ++ [c]) = dropTrailWs (x :: xs)
      exact dropTrailWs_snoc_ws c hc (x :: xs)

/-- Stripping is invariant under wrapping in a single newline on each side. -/
theorem pyStrip_wrap (s : List Char) :
    pyStrip ('\n' :: (s ++ ['\n'])) = pyStrip s := by
  have h1 : pyStrip ('\n' :: (s ++ ['\n'])) = pyStrip (s ++ ['\n']) := by
    unfold pyStrip
    rw [List.dropWhile_cons_of_pos (by rfl)]
  rw [h1]
  exact pyStrip_snoc_ws '\n' rfl s

/-- A string that starts and ends with a non-whitespace character is left
unchanged by stripping. -/
theorem pyStrip_of_nonws_ends (x c : Char) (u : List Char)
    (hx : isJsonWs x = false) (hc : isJsonWs c = false) :
    pyStrip (x :: (u ++ [c])) = x :: (u ++ [c]) := by
  unfold pyStrip
  rw [List.dropWhile_cons_of_neg (by simp [hx])]
  rw [show x :: (u ++ [c]) = (x :: u) ++ [c] from rfl]
  exact dropTrailWs_snoc_nonws c hc (x :: u)

/-- `json.loads` ignores a single wrapping newline on each side. -/
theorem json_loads_wrap (s : List Char) :
    json_loads ('\n' :: (s ++ ['\n'])) = json_loads s := by
  unfold json_loads
  rw [pyStrip_wrap]

/-! ## Lemmas about the ledger operations -/

theorem pyIn_iff (x : String) (l : List String) : pyIn x l = true ↔ x ∈ l := by
  simp [pyIn]

/-- Full characterization of `update_google_sheet`: the header row becomes the
old header followed by the new keys, and exactly one row, aligned to the
updated header, is appended. -/
theorem update_eq (ws : Worksheet) (d : List (String × String)) :
    update_google_sheet ws d
      = { header := ws.header ++ new_headers ws d,
          rows := ws.rows
            ++ [(ws.header ++ new_headers ws d).map (fun h => dictGetD d h "")] } := by
  unfold update_google_sheet new_headers
  cases hnew : ((dictKeys d).filter (fun h => !(pyIn h ws.header))).isEmpty with
  | true =>
    have h0 : (dictKeys d).filter (fun h => !(pyIn h ws.header)) = [] :=
      List.isEmpty_iff.mp hnew
    simp [hnew, h0]
  | false =>
    cases hhd : ws.header.isEmpty with
    | true =>
      have h0 : ws.header = [] := List.isEmpty_iff.mp hhd
      simp [h0, pyIn] at hnew
      simp [hnew, hhd, h0, pyIn]
    | false =>
      simp [hnew, hhd]

theorem update_header_eq (ws : Worksheet) (d : List (String × String)) :
    (update_google_sheet ws d).header = ws.header ++ new_headers ws d := by
  rw [update_eq]

theorem update_rows_eq (ws : Worksheet) (d : List (String × String)) :
    (update_google_sheet ws d).rows
      = ws.rows
        ++ [(update_google_sheet ws d).header.map (fun h => dictGetD d h "")] := by
  rw [update_eq]

/-- Every key of the record is present in the header row after the call. -/
theorem mem_header_update (ws : Worksheet) (d : List (String × String))
    (k : String) (hk : k ∈ dictKeys d) :
    k ∈ (update_google_sheet ws d).header := by
  rw [update_header_eq]
  by_cases h : k ∈ ws.header
  · exact List.mem_append_left _ h
  · refine List.mem_append_right _ ?_
    have hfalse : pyIn k ws.header = false := by
      cases hb : pyIn k ws.header with
      | true => exact absurd ((pyIn_iff k ws.header).mp hb) h
      | false => rfl
    unfold new_headers
    exact List.mem_filter.mpr ⟨hk, by simp [hfalse]⟩

/-! ## Claim theorems -/

/-- Claim C1: upserting `\x7b"Bill No":"1160","Weight":"27540"\x7d` into a table
with an empty header row writes the header `["Bill No","Weight"]` and appends
the row `["1160","27540"]`; a second upsert of
`\x7b"Bill No":"1161","Rate":"2020"\x7d` yields the header
`["Bill No","Weight","Rate"]`, appends the row `["1161","","2020"]`, and
leaves the first data row exactly `["1160","27540"]` with no third cell. -/
theorem claim1_upsert_scenario :
    update_google_sheet ⟨[], []⟩ [("Bill No", "1160"), ("Weight", "27540")]
      = ⟨["Bill No", "Weight"], [["1160", "27540"]]⟩
    ∧ update_google_sheet ⟨["Bill No", "Weight"], [["1160", "27540"]]⟩
        [("Bill No", "1161"), ("Rate", "2020")]
      = ⟨["Bill No", "Weight", "Rate"],
         [["1160", "27540"], ["1161", "", "2020"]]⟩ := by
  exact ⟨by decide, by decide⟩

/-- Claim C2: for every table and every `update_google_sheet` call on it, the
header before the call is an initial segment of the header after it (so
existing headers are never removed or reordered and the header count never
decreases), and the keys not already present are appended at the end in the
record's own key order. -/
theorem claim2_header_monotone (ws : Worksheet) (d : List (String × String)) :
    (update_google_sheet ws d).header
        = ws.header ++ (dictKeys d).filter (fun h => !(pyIn h ws.header))
    ∧ (update_google_sheet ws d).header.take ws.header.length = ws.header
    ∧ ws.header.length ≤ (update_google_sheet ws d).header.length := by
  refine ⟨update_header_eq ws d, ?_, ?_⟩
  · rw [update_header_eq]
    exact List.take_left _ _
  · rw [update_header_eq]
    simp

/-- Claim C3: every `update_google_sheet` call appends exactly one row, whose
length equals the header length in force after the call's own header
additions, and the rows already present are left exactly as they were. -/
theorem claim3_row_alignment (ws : Worksheet) (d : List (String × String)) :
    (update_google_sheet ws d).rows
        = ws.rows
          ++ [(update_google_sheet ws d).header.map (fun h => dictGetD d h "")]
    ∧ ((update_google_sheet ws d).header.map (fun h => dictGetD d h "")).length
        = (update_google_sheet ws d).header.length := by
  exact ⟨update_rows_eq ws d, List.length_map _ _⟩

/-- Claim C4: two successive `update_google_sheet` calls whose records have
the same (non-empty) key set change the header row at most on the first call;
the second call leaves the header exactly as the first left it. -/
theorem claim4_second_call_header_stable (ws : Worksheet)
    (d1 d2 : List (String × String)) (_hne : dictKeys d1 ≠ [])
    (hsub : (dictKeys d2).all (fun k => pyIn k (dictKeys d1)) = true) :
    (update_google_sheet (update_google_sheet ws d1) d2).header
      = (update_google_sheet ws d1).header := by
  rw [update_header_eq (update_google_sheet ws d1) d2]
  have hnil : new_headers (update_google_sheet ws d1) d2 = [] := by
    unfold new_headers
    rw [List.filter_eq_nil_iff]
    intro k hk
    have hk1 : k ∈ dictKeys d1 :=
      (pyIn_iff k (dictKeys d1)).mp (List.all_eq_true.mp hsub k hk)
    have hmem : k ∈ (update_google_sheet ws d1).header :=
      mem_header_update ws d1 k hk1
    simp [(pyIn_iff k _).mpr hmem]
  rw [hnil, List.append_nil]

/-- Witness for claim C4 at a concrete input. -/
theorem claim4_second_call_header_stable_witness :
    dictKeys [("Bill No", "1160")] ≠ []
    ∧ (dictKeys [("Bill No", "1161")]).all
        (fun k => pyIn k (dictKeys [("Bill No", "1160")])) = true
    ∧ (update_google_sheet
          (update_google_sheet ⟨[], []⟩ [("Bill No", "1160")])
          [("Bill No", "1161")]).header
        = (update_google_sheet ⟨[], []⟩ [("Bill No", "1160")]).header :=
  ⟨by decide, by decide,
    claim4_second_call_header_stable ⟨[], []⟩ [("Bill No", "1160")]
      [("Bill No", "1161")] (by decide) (by decide)⟩

/-- Claim C5 counterexample: for the model response
`\x7b"party_name": "ACME"\x7d` (bill-type key absent, party-name key present)
the stage returns `(None, "ACME")`, not the empty result `(None, None)` the
claim asserts. -/
theorem claim5_counterexample :
    analyze_bill_type_and_party "\x7b\"party_name\": \"ACME\"\x7d".toList
      = (none, some (JValue.jstr "ACME".toList))
    ∧ (some (JValue.jstr "ACME".toList) : Option JValue) ≠ none :=
  ⟨rfl, by simp⟩

/-- Claim C5 as amended: when the response parses to a JSON object, the stage
returns `data.get` of each key independently — a field is null exactly when
its key is absent or its stored value is JSON `null` (which `json.loads`
maps to Python `None`); a null field never nulls the other one, and the
result is the empty pair exactly when both lookups return `None`. -/
theorem claim5_amended_absent_key_independent (txt : List Char)
    (kvs : List (List Char × JValue))
    (hp : parseResponse txt = some (JValue.jobj kvs)) :
    analyze_bill_type_and_party txt
        = (jGet kvs billTypeKey, jGet kvs partyNameKey)
    ∧ (analyze_bill_type_and_party txt = (none, none)
        ↔ jGet kvs billTypeKey = none ∧ jGet kvs partyNameKey = none) := by
  have hres : analyze_bill_type_and_party txt
      = (jGet kvs billTypeKey, jGet kvs partyNameKey) := by
    unfold analyze_bill_type_and_party analyze_ui
    rw [hp]
  refine ⟨hres, ?_⟩
  rw [hres, Prod.mk.injEq]

/-- Witness for the amended claim C5 at the concrete response
`\x7b"bill_type": null, "party_name": "ACME"\x7d`: the bill-type key is
present with a JSON `null` value, its lookup returns `None` exactly as for an
absent key, and the party name still passes through. -/
theorem claim5_amended_absent_key_independent_witness :
    parseResponse "\x7b\"bill_type\": null, \"party_name\": \"ACME\"\x7d".toList
      = some (JValue.jobj [("bill_type".toList, JValue.jnull),
          ("party_name".toList, JValue.jstr "ACME".toList)])
    ∧ (analyze_bill_type_and_party
          "\x7b\"bill_type\": null, \"party_name\": \"ACME\"\x7d".toList
        = (jGet [("bill_type".toList, JValue.jnull),
              ("party_name".toList, JValue.jstr "ACME".toList)] billTypeKey,
           jGet [("bill_type".toList, JValue.jnull),
              ("party_name".toList, JValue.jstr "ACME".toList)] partyNameKey)
      ∧ (analyze_bill_type_and_party
            "\x7b\"bill_type\": null, \"party_name\": \"ACME\"\x7d".toList
          = (none, none)
        ↔ jGet [("bill_type".toList, JValue.jnull),
              ("party_name".toList, JValue.jstr "ACME".toList)] billTypeKey
            = none
          ∧ jGet [("bill_type".toList, JValue.jnull),
              ("party_name".toList, JValue.jstr "ACME".toList)] partyNameKey
            = none)) :=
  ⟨rfl, claim5_amended_absent_key_independent _ _ rfl⟩

/-- Claim C6 counterexample: the unfenced single-object text
`\x7b"a": "json"\x7d` is parsed to the mapping `\x7ba: ""\x7d` — the cleaning
step deleted the characters `json` from inside the value, so the value is
not passed through as given. -/
theorem claim6_counterexample :
    parseResponse "\x7b\"a\": \"json\"\x7d".toList
      = some (JValue.jobj [(['a'], JValue.jstr [])])
    ∧ some (JValue.jobj [(['a'], JValue.jstr [])])
        ≠ some (JValue.jobj [(['a'], JValue.jstr "json".toList)]) :=
  ⟨rfl, by simp⟩

/-- Claim C6 as amended: the cleaning step removes every backtick and every
occurrence of the substring `json` anywhere in the text, including inside
keys and values; for a body containing neither (and carrying no surrounding
whitespace of its own), the parser returns exactly `json.loads` of the body,
both for the code-fenced wrapping and for the bare text. -/
theorem claim6_amended_fence_transparent (body : List Char)
    (hb : btick ∉ body) (hj : hasSub jsonTag body = false)
    (hs : pyStrip body = body) :
    parseResponse (fenceOpen ++ (body ++ fenceClose)) = json_loads body
    ∧ parseResponse body = json_loads body := by
  have hfilterBody : body.filter (fun c => !(btick == c)) = body := by
    rw [List.filter_eq_self]
    intro a ha
    cases hba : btick == a with
    | false => rfl
    | true =>
      exfalso
      rw [beq_iff_eq] at hba
      rw [hba] at hb
      exact hb ha
  constructor
  · have h1 : pyStrip (fenceOpen ++ (body ++ fenceClose))
        = fenceOpen ++ (body ++ fenceClose) := by
      have hshape : fenceOpen ++ (body ++ fenceClose)
          = btick :: (([btick, btick, 'j', 's', 'o', 'n', '\n']
              ++ (body ++ ['\n', btick, btick])) ++ [btick]) := by
        simp [fenceOpen, fenceClose]
      rw [hshape]
      exact pyStrip_of_nonws_ends btick btick _ (by decide) (by decide)
    have hA : List.filter (fun c => !(btick == c)) fenceOpen
        = ['j', 's', 'o', 'n', '\n'] := by decide
    have hC : List.filter (fun c => !(btick == c)) fenceClose = ['\n'] := by
      decide
    have hticks : pyReplaceDel [btick] (fenceOpen ++ (body ++ fenceClose))
        = jsonTag ++ ('\n' :: (body ++ ['\n'])) := by
      rw [pyReplaceDel_singleton, List.filter_append, List.filter_append,
        hA, hfilterBody, hC]
      simp [jsonTag]
    have hrest : hasSub jsonTag ('\n' :: (body ++ ['\n'])) = false := by
      apply hasSub_cons_false _ _ _ (by decide) (by decide)
      exact hasSub_snoc_false jsonTag '\n' (by decide) (by decide) body hj
    have hjson : pyReplaceDel jsonTag (jsonTag ++ ('\n' :: (body ++ ['\n'])))
        = '\n' :: (body ++ ['\n']) :=
      pyReplaceDel_front 'j' ['s', 'o', 'n'] _ hrest
    have hcleanF : cleanResponse (fenceOpen ++ (body ++ fenceClose))
        = '\n' :: (body ++ ['\n']) := by
      unfold cleanResponse
      rw [h1, hticks, hjson]
    show json_loads (cleanResponse (fenceOpen ++ (body ++ fenceClose)))
        = json_loads body
    rw [hcleanF, json_loads_wrap]
  · have hclean2 : cleanResponse body = body := by
      unfold cleanResponse
      rw [hs, pyReplaceDel_singleton, hfilterBody]
      exact pyReplaceDel_no_occurrence jsonTag body hj
    show json_loads (cleanResponse body) = json_loads body
    rw [hclean2]

/-- Witness for the amended claim C6 at the concrete body `\x7b"a": 1\x7d`. -/
theorem claim6_amended_fence_transparent_witness :
    btick ∉ "\x7b\"a\": 1\x7d".toList
    ∧ hasSub jsonTag "\x7b\"a\": 1\x7d".toList = false
    ∧ pyStrip "\x7b\"a\": 1\x7d".toList = "\x7b\"a\": 1\x7d".toList
    ∧ (parseResponse (fenceOpen ++ ("\x7b\"a\": 1\x7d".toList ++ fenceClose))
        = json_loads "\x7b\"a\": 1\x7d".toList
      ∧ parseResponse "\x7b\"a\": 1\x7d".toList
          = json_loads "\x7b\"a\": 1\x7d".toList) :=
  ⟨by decide, by decide, by decide,
    claim6_amended_fence_transparent _ (by decide) (by decide) (by decide)⟩

/-- Claim C8: the Response Parser maps the fenced text
with body `\x7b"a":1\x7d` to the mapping `\x7ba: 1\x7d`; on `"not json"` it
yields no mapping, and both stages preserve and surface the original raw
model text for diagnostic display alongside the parse error. -/
theorem claim8_parser_concrete_cases :
    parseResponse "```json\n\x7b\"a\":1\x7d\n```".toList
      = some (JValue.jobj [(['a'], JValue.jnum 1)])
    ∧ parseResponse "not json".toList = none
    ∧ analyze_ui "not json".toList
        = ((none, none), [Event.shownParse1Error, Event.shownRaw "not json".toList])
    ∧ extract_ui "not json".toList
        = (none, [Event.shownParse2Error, Event.shownRaw "not json".toList]) :=
  ⟨rfl, rfl, rfl, rfl⟩

/-- Claim C7 as amended: when classification succeeds and extraction fails to
parse, the upload has completed before extraction runs and the archived file
is never removed, and the user is shown the stage-specific extraction error
and not the success message; however the stored file's link is NOT shown —
it is only displayed on full success. -/
theorem claim7_amended_upload_kept_link_not_shown (ct et fn : List Char)
    (h1 : jTruthy (analyze_bill_type_and_party ct).1 = true)
    (h2 : jTruthy (analyze_bill_type_and_party ct).2 = true)
    (hx : parseResponse et = none) :
    mainFlow ct et fn
      = [Event.shownImage, Event.shownDetected, Event.resolvedFolder,
         Event.resolvedSheet, Event.uploadedFile fn, Event.shownParse2Error,
         Event.shownRaw et, Event.shownExtractError]
    ∧ Event.uploadedFile fn ∈ mainFlow ct et fn
    ∧ Event.shownExtractError ∈ mainFlow ct et fn
    ∧ Event.shownSuccess ∉ mainFlow ct et fn
    ∧ Event.deletedFile fn ∉ mainFlow ct et fn
    ∧ Event.shownLink fn ∉ mainFlow ct et fn := by
  have hobj : ∃ kvs, parseResponse ct = some (JValue.jobj kvs) := by
    cases hp : parseResponse ct with
    | none =>
      exfalso
      unfold analyze_bill_type_and_party analyze_ui at h1
      rw [hp] at h1
      simp [jTruthy] at h1
    | some v =>
      cases v with
      | jobj kvs => exact ⟨kvs, rfl⟩
      | jnull =>
        exfalso
        unfold analyze_bill_type_and_party analyze_ui at h1
        rw [hp] at h1
        simp [jTruthy] at h1
      | jbool b =>
        exfalso
        unfold analyze_bill_type_and_party analyze_ui at h1
        rw [hp] at h1
        simp [jTruthy] at h1
      | jnum n =>
        exfalso
        unfold analyze_bill_type_and_party analyze_ui at h1
        rw [hp] at h1
        simp [jTruthy] at h1
      | jstr s =>
        exfalso
        unfold analyze_bill_type_and_party analyze_ui at h1
        rw [hp] at h1
        simp [jTruthy] at h1
      | jarr xs =>
        exfalso
        unfold analyze_bill_type_and_party analyze_ui at h1
        rw [hp] at h1
        simp [jTruthy] at h1
  obtain ⟨kvs, hp⟩ := hobj
  have hui : analyze_ui ct = ((jGet kvs billTypeKey, jGet kvs partyNameKey), []) := by
    unfold analyze_ui
    rw [hp]
  have hbt : jTruthy (jGet kvs billTypeKey) = true := by
    unfold analyze_bill_type_and_party at h1
    rw [hui] at h1
    exact h1
  have hpn : jTruthy (jGet kvs partyNameKey) = true := by
    unfold analyze_bill_type_and_party at h2
    rw [hui] at h2
    exact h2
  have hex : extract_ui et = (none, [Event.shownParse2Error, Event.shownRaw et]) := by
    unfold extract_ui
    rw [hx]
  have hmain : mainFlow ct et fn
      = [Event.shownImage, Event.shownDetected, Event.resolvedFolder,
         Event.resolvedSheet, Event.uploadedFile fn, Event.shownParse2Error,
         Event.shownRaw et, Event.shownExtractError] := by
    unfold mainFlow
    rw [hui, hex]
    simp [hbt, hpn, jTruthy]
    exact ⟨hbt, hpn⟩
  refine ⟨hmain, ?_, ?_, ?_, ?_, ?_⟩ <;> rw [hmain] <;> simp

set_option maxRecDepth 16384 in
/-- Witness for the amended claim C7 at concrete model responses. -/
theorem claim7_amended_upload_kept_link_not_shown_witness :
    jTruthy (analyze_bill_type_and_party
        "\x7b\"bill_type\": \"Loading Bill\", \"party_name\": \"ACME\"\x7d".toList).1
      = true
    ∧ jTruthy (analyze_bill_type_and_party
        "\x7b\"bill_type\": \"Loading Bill\", \"party_name\": \"ACME\"\x7d".toList).2
      = true
    ∧ parseResponse "not a bill".toList = none
    ∧ mainFlow
        "\x7b\"bill_type\": \"Loading Bill\", \"party_name\": \"ACME\"\x7d".toList
        "not a bill".toList "bill.jpg".toList
      = [Event.shownImage, Event.shownDetected, Event.resolvedFolder,
         Event.resolvedSheet, Event.uploadedFile "bill.jpg".toList,
         Event.shownParse2Error, Event.shownRaw "not a bill".toList,
         Event.shownExtractError] :=
  ⟨rfl, rfl, rfl,
    (claim7_amended_upload_kept_link_not_shown
      "\x7b\"bill_type\": \"Loading Bill\", \"party_name\": \"ACME\"\x7d".toList
      "not a bill".toList "bill.jpg".toList rfl rfl rfl).1⟩

set_option maxRecDepth 16384 in
/-- Claim C7 counterexample: in the very scenario the claim describes
(classification succeeded, extraction failed to parse), the upload completed
and the extraction error is shown, but the stored file's link is NOT shown to
the user, contrary to the claim. -/
theorem claim7_counterexample :
    Event.uploadedFile "bill.jpg".toList
        ∈ mainFlow
          "\x7b\"bill_type\": \"Loading Bill\", \"party_name\": \"ACME\"\x7d".toList
          "not a bill".toList "bill.jpg".toList
    ∧ Event.shownExtractError
        ∈ mainFlow
          "\x7b\"bill_type\": \"Loading Bill\", \"party_name\": \"ACME\"\x7d".toList
          "not a bill".toList "bill.jpg".toList
    ∧ Event.shownLink "bill.jpg".toList
        ∉ mainFlow
          "\x7b\"bill_type\": \"Loading Bill\", \"party_name\": \"ACME\"\x7d".toList
          "not a bill".toList "bill.jpg".toList := by
  have h : mainFlow
      "\x7b\"bill_type\": \"Loading Bill\", \"party_name\": \"ACME\"\x7d".toList
      "not a bill".toList "bill.jpg".toList
      = [Event.shownImage, Event.shownDetected, Event.resolvedFolder,
         Event.resolvedSheet, Event.uploadedFile "bill.jpg".toList,
         Event.shownParse2Error, Event.shownRaw "not a bill".toList,
         Event.shownExtractError] := rfl
  refine ⟨?_, ?_, ?_⟩ <;> rw [h] <;> simp

/-- Claim C9: resolving a worksheet name that only differs in case from an
existing worksheet returns that worksheet instead of creating a new one:
when no worksheet case-insensitively matching `n1` exists, resolving `n1`
creates it, and a subsequent resolution of any `n2` with the same
lower-cased name returns that same worksheet and creates nothing. -/
theorem claim9_case_insensitive_resolution (sheets : List String)
    (n1 n2 : String) (hcase : pyLower n1 = pyLower n2)
    (hnone : sheets.all (fun t => !(pyLower t == pyLower n1)) = true) :
    get_or_create_worksheet sheets n1 = (sheets ++ [n1], n1)
    ∧ get_or_create_worksheet (sheets ++ [n1]) n2 = (sheets ++ [n1], n1) := by
  have hnone' : ∀ t ∈ sheets, pyLower t ≠ pyLower n1 := by
    intro t ht
    have h := List.all_eq_true.mp hnone t ht
    simpa using h
  have hex1 : sheets.find? (fun t => t == n1) = none := by
    rw [List.find?_eq_none]
    intro t ht hbeq
    exact hnone' t ht (by rw [beq_iff_eq] at hbeq; rw [hbeq])
  have hci1 : sheets.find? (fun t => pyLower t == pyLower n1) = none := by
    rw [List.find?_eq_none]
    intro t ht hbeq
    exact hnone' t ht (by rwa [beq_iff_eq] at hbeq)
  have hex2 : sheets.find? (fun t => t == n2) = none := by
    rw [List.find?_eq_none]
    intro t ht hbeq
    refine hnone' t ht ?_
    rw [beq_iff_eq] at hbeq
    rw [hbeq, ← hcase]
  have hci2 : sheets.find? (fun t => pyLower t == pyLower n2) = none := by
    rw [List.find?_eq_none]
    intro t ht hbeq
    refine hnone' t ht ?_
    rw [beq_iff_eq] at hbeq
    rw [hbeq, ← hcase]
  constructor
  · simp [get_or_create_worksheet, hex1, hci1]
  · cases hn : n1 == n2 with
    | true =>
      simp [get_or_create_worksheet, List.find?_append, hex2, hn]
    | false =>
      have hcib : (pyLower n1 == pyLower n2) = true := by
        rw [beq_iff_eq]; exact hcase
      simp [get_or_create_worksheet, List.find?_append, hex2, hci2, hn, hcib]

/-- Witness for claim C9 at the spec's concrete input: `"ABC"` then
`"abc"` on an empty spreadsheet. -/
theorem claim9_case_insensitive_resolution_witness :
    pyLower "ABC" = pyLower "abc"
    ∧ ([] : List String).all (fun t => !(pyLower t == pyLower "ABC")) = true
    ∧ get_or_create_worksheet [] "ABC" = ([] ++ ["ABC"], "ABC")
    ∧ get_or_create_worksheet ([] ++ ["ABC"]) "abc" = ([] ++ ["ABC"], "ABC") :=
  ⟨by decide, by decide,
    (claim9_case_insensitive_resolution [] "ABC" "abc" (by decide) (by decide)).1,
    (claim9_case_insensitive_resolution [] "ABC" "abc" (by decide) (by decide)).2⟩

/-- Claim C10: the MIME type attached to the image bytes is always
`"image/jpeg"` — in both model calls and in the Drive upload — even though
the upload form also accepts PNG files. -/
theorem claim10_mime_always_jpeg (image_bytes : List Nat) (file_name : String) :
    (analyze_image_part image_bytes).mime = "image/jpeg"
    ∧ (extract_image_part image_bytes).mime = "image/jpeg"
    ∧ (upload_request file_name image_bytes).mime = "image/jpeg"
    ∧ "png" ∈ file_uploader_types :=
  ⟨rfl, rfl, rfl, by decide⟩

end BillApp
